import Mathlib

/-!
Verification of the KPP2 tridiagonal-system repository (C sources under
`src/c` and `src/Aufgabe2/c`): a Parallel Cyclic Reduction (PCR) solver
(`pcr.c`), the `triSLE` system type with `copy` and the two validation
metrics (`sle.c`), and the `diagonal` vector type (`diagonal.c`).

Modelling conventions of the shallow embedding:
* C `float` values are modelled as exact rationals `ℚ`.  For the
  validation functions of `sle.c`, which explicitly test `result != result`
  (the IEEE NaN test), the value domain is `CF`: `ℚ` extended with a NaN
  element whose arithmetic and comparisons follow IEEE semantics (every
  arithmetic operation propagates NaN, `0/0` is NaN, every ordered
  comparison involving NaN is false, `!=` involving NaN is true).
* A `diagonal_t` buffer is a Lean list; its `n` field equals the list
  length (as established by `diagonal_create`).  The system size used by
  every `triSLE` operation in the C code is `b->n`, i.e. here `b.length`.
* A possibly-NULL C handle is an `Option`; `none` is the NULL pointer.
  A function whose C counterpart can run into undefined behaviour
  (NULL dereference, buffer overrun) returns an `Option` result, with
  `none` marking the undefined execution.
* Buffer identity (which allocation a handle points to after the pointer
  swapping inside `pcr`) is modelled by tagging each buffer with a `Nat`
  id; `malloc` outcomes are passed in as `Option` parameters.
-/

namespace KPP2

/-- A tridiagonal system of linear equations (struct `triSLE_s` in `sle.h`):
lower diagonal `a`, main diagonal `b`, upper diagonal `c`, right-hand side
`d`, solution vector `x`.  Each `diagonal_t` is modelled by its data list. -/
structure TriSLE (α : Type) where
  a : List α
  b : List α
  c : List α
  d : List α
  x : List α
deriving DecidableEq, Repr

/-- Read `l[i]`; the default is never reached on the in-bounds accesses the
C code performs. -/
def getQ (l : List ℚ) (i : ℕ) : ℚ := l.getD i 0

/-- `EPSILON` from `pcr.c` (`#define EPSILON 1e-30`). -/
def EPSILON : ℚ := 1 / 10 ^ 30

/-- `compute_decoupling_coeffs` from `pcr.c`:
`-into_value / (decoupling_value == 0 ? EPSILON : decoupling_value)`. -/
def compute_decoupling_coeffs (decoupling_value into_value : ℚ) : ℚ :=
  -into_value / (if decoupling_value = 0 then EPSILON else decoupling_value)

/-- `update_step` from `pcr.c`, as a pure function from the current
coefficient lists to the freshly written `tmp_a, tmp_b, tmp_c, tmp_d`
lists.  `stride = 1 << level`; a negative left index (`i < stride`) or a
right index `≥ n` selects the virtual boundary values (main diagonal 1,
everything else 0).  `x` is not touched by the update step. -/
def update_step (s : TriSLE ℚ) (level : ℕ) : TriSLE ℚ :=
  let n := s.b.length
  let stride := 2 ^ level
  let alpha := fun i =>
    compute_decoupling_coeffs (if i < stride then 1 else getQ s.b (i - stride)) (getQ s.a i)
  let gamma := fun i =>
    compute_decoupling_coeffs (if i + stride < n then getQ s.b (i + stride) else 1) (getQ s.c i)
  let saL := fun i => if i < stride then 0 else getQ s.a (i - stride)
  let scL := fun i => if i < stride then 0 else getQ s.c (i - stride)
  let sdL := fun i => if i < stride then 0 else getQ s.d (i - stride)
  let saR := fun i => if i + stride < n then getQ s.a (i + stride) else 0
  let scR := fun i => if i + stride < n then getQ s.c (i + stride) else 0
  let sdR := fun i => if i + stride < n then getQ s.d (i + stride) else 0
  { a := (List.range n).map fun i => alpha i * saL i
    b := (List.range n).map fun i => getQ s.b i + alpha i * scL i + gamma i * saR i
    c := (List.range n).map fun i => gamma i * scR i
    d := (List.range n).map fun i => getQ s.d i + alpha i * sdL i + gamma i * sdR i
    x := s.x }

/-- Levels `0, 1, ..., k-1` of the reduction applied in order (the body of
the `for (size_t level = 0; level < total_levels; level++)` loop of `pcr`,
looking only at the values stored in the buffers). -/
def reduceLevels : ℕ → TriSLE ℚ → TriSLE ℚ
  | 0, s => s
  | k + 1, s => update_step (reduceLevels k s) k

/-- `total_levels` from `pcr`: `(size_t)ceil(log2((float)n))`, i.e. the
least `L` with `n ≤ 2^L`.  (The C code computes it in floating point,
which is exact for every `n` representable in a `float`.)  The definition
searches the least such `L`, so that it evaluates by kernel reduction. -/
def total_levels (n : ℕ) : ℕ :=
  match ((List.range (n + 1)).filter fun L => n ≤ 2 ^ L).head? with
  | some L => L
  | none => 0

/-- The coefficient lists after all `total_levels` reduction levels. -/
def pcrData (s : TriSLE ℚ) : TriSLE ℚ :=
  reduceLevels (total_levels s.b.length) s

/-- The solution written by `pcr` into `x`:
`x[i] = d[i] / b[i]` from the fully reduced system. -/
def pcrX (s : TriSLE ℚ) : List ℚ :=
  let f := pcrData s
  (List.range s.b.length).map fun i => getQ f.d i / getQ f.b i

/-! ### The full `pcr` routine, with buffer identity and allocation

`pcr` swaps the `data` pointers of the system's diagonals with four
scratch buffers at every level.  A buffer (`float *`) is modelled as a
`Nat` id plus its contents; the id tracks which allocation a handle
points to. -/

/-- A heap-allocated `float` buffer: its identity (the pointer value) and
its contents. -/
structure Buf where
  id : ℕ
  data : List ℚ
deriving DecidableEq, Repr

/-- The five buffers a `triSLE_t` holds during `pcr`. -/
structure SLEB where
  a : Buf
  b : Buf
  c : Buf
  d : Buf
  x : Buf
deriving DecidableEq, Repr

/-- The four scratch buffers `a_data_tmp .. d_data_tmp`. -/
structure Tmps where
  ta : Buf
  tb : Buf
  tc : Buf
  td : Buf
deriving DecidableEq, Repr

/-- The coefficient values currently visible through the system's handles. -/
def bufsData (s : SLEB) : TriSLE ℚ :=
  ⟨s.a.data, s.b.data, s.c.data, s.d.data, s.x.data⟩

/-- One iteration of the reduction loop of `pcr`: `update_step` writes the
new values into the scratch buffers, then the four `data` pointers are
swapped with the scratch pointers.  Afterwards the system's handles show
the new values in the (old) scratch buffers, and the scratch handles hold
the previous buffers with the stale old values. -/
def swapStep (sle : SLEB) (t : Tmps) (level : ℕ) : SLEB × Tmps :=
  let s := update_step (bufsData sle) level
  (⟨⟨t.ta.id, s.a⟩, ⟨t.tb.id, s.b⟩, ⟨t.tc.id, s.c⟩, ⟨t.td.id, s.d⟩, sle.x⟩,
   ⟨⟨sle.a.id, sle.a.data⟩, ⟨sle.b.id, sle.b.data⟩,
    ⟨sle.c.id, sle.c.data⟩, ⟨sle.d.id, sle.d.data⟩⟩)

/-- The first `k` iterations of the reduction loop (levels `0 .. k-1`). -/
def pcrLoop : ℕ → SLEB → Tmps → SLEB × Tmps
  | 0, sle, t => (sle, t)
  | k + 1, sle, t =>
    let p := pcrLoop k sle t
    swapStep p.1 p.2 k

/-- The body of `pcr` after successful allocation: run all levels, write
`x[i] = d[i]/b[i]`, and if the level count is odd, copy the final values
into the buffers the scratch handles now hold (the original allocations)
and swap the pointers back.  Returns the final system state and the
scratch handles that are freed at the end. -/
def pcrBufs (sle0 : SLEB) (t0 : Tmps) : SLEB × Tmps :=
  let n := sle0.b.data.length
  let L := total_levels n
  let p := pcrLoop L sle0 t0
  let s1 := p.1
  let xd := (List.range n).map fun i => getQ s1.d.data i / getQ s1.b.data i
  let s2 : SLEB := ⟨s1.a, s1.b, s1.c, s1.d, ⟨s1.x.id, xd⟩⟩
  if L % 2 ≠ 0 then
    (⟨⟨p.2.ta.id, s2.a.data⟩, ⟨p.2.tb.id, s2.b.data⟩,
      ⟨p.2.tc.id, s2.c.data⟩, ⟨p.2.td.id, s2.d.data⟩, s2.x⟩,
     ⟨⟨s2.a.id, s2.a.data⟩, ⟨s2.b.id, s2.b.data⟩,
      ⟨s2.c.id, s2.c.data⟩, ⟨s2.d.id, s2.d.data⟩⟩)
  else (s2, p.2)

/-- `pcr` from `pcr.c` on a non-NULL system (the NULL check returns `-1`
before anything else).  The four `malloc` outcomes are passed as `Option`
parameters (`none` = allocation failure).  Result: the C return code, the
final state of the system's buffers, and the ids of the buffers freed
during the call (`free(NULL)` is a no-op and contributes nothing). -/
def pcr (sle : SLEB) (ma mb mc md : Option Buf) : Int × SLEB × List ℕ :=
  let n := sle.b.data.length
  if n = 0 then (0, sle, [])
  else
    match ma, mb, mc, md with
    | some ta, some tb, some tc, some td =>
      let p := pcrBufs sle ⟨ta, tb, tc, td⟩
      (0, p.1, [p.2.ta.id, p.2.tb.id, p.2.tc.id, p.2.td.id])
    | _, _, _, _ =>
      (-1, sle, [ma, mb, mc, md].filterMap fun o => o.map Buf.id)

/-! ### The value domain of `sle.c`'s validation metrics

`triSLE_validate_maxrel` tests `result != result`, the IEEE test for NaN,
so its value domain must contain NaN.  `CF` is `ℚ` with a NaN element;
arithmetic propagates NaN, division by zero yields NaN, ordered
comparisons with NaN are false and `!=` with NaN is true, exactly the
IEEE rules the C code relies on. -/

inductive CF where
  | nan : CF
  | fin : ℚ → CF
deriving DecidableEq, Repr

/-- Addition; NaN propagates. -/
def CF.add : CF → CF → CF
  | .fin p, .fin q => .fin (p + q)
  | _, _ => .nan

/-- Subtraction; NaN propagates. -/
def CF.sub : CF → CF → CF
  | .fin p, .fin q => .fin (p - q)
  | _, _ => .nan

/-- Multiplication; NaN propagates. -/
def CF.mul : CF → CF → CF
  | .fin p, .fin q => .fin (p * q)
  | _, _ => .nan

/-- Division; NaN propagates and a zero divisor yields NaN (the only zero
divisors the C code can reach are of the form `0.0/0.0`). -/
def CF.div : CF → CF → CF
  | .fin p, .fin q => if q = 0 then .nan else .fin (p / q)
  | _, _ => .nan

/-- `fabs`; `fabs(NaN)` is NaN. -/
def CF.abs : CF → CF
  | .fin p => .fin |p|
  | .nan => .nan

/-- The C test `v != v`: true exactly for NaN. -/
def CF.isNaN : CF → Bool
  | .nan => true
  | .fin _ => false

/-- The C test `v != 0.0`: true for NaN (NaN compares unequal to
everything) and for every nonzero finite value. -/
def CF.ne0 : CF → Bool
  | .nan => true
  | .fin p => decide (p ≠ 0)

/-- The C test `v > w`: false whenever either side is NaN. -/
def CF.gt : CF → CF → Bool
  | .fin p, .fin q => decide (q < p)
  | _, _ => false

/-- Read `l[i]` in the `CF` domain. -/
def getCF (l : List CF) (i : ℕ) : CF := l.getD i (CF.fin 0)

/-- The residual of row `i`, recomputed by both validation functions from
the initial system's coefficients and the result system's `x`:
`result = b₀[i]*x[i]`, plus `a₀[i]*x[i-1]` when `i > 0`, plus
`c₀[i]*x[i+1]` when `i < n-1`, where `n = initial_system->b->n`. -/
def residual (result_system initial_system : TriSLE CF) (i : ℕ) : CF :=
  let n := initial_system.b.length
  let r0 := CF.mul (getCF initial_system.b i) (getCF result_system.x i)
  let r1 :=
    if 0 < i then
      CF.add r0 (CF.mul (getCF initial_system.a i) (getCF result_system.x (i - 1)))
    else r0
  if i < n - 1 then
    CF.add r1 (CF.mul (getCF initial_system.c i) (getCF result_system.x (i + 1)))
  else r1

/-- The loop of `triSLE_validate_maxrel` over the remaining row indices,
with the running maximum `acc`.  A NaN residual is returned at once (the
C code stores it and breaks out of the loop); a row with `d₀[i] != 0.0`
updates the maximum when its relative error exceeds it. -/
def maxrelGo (result_system initial_system : TriSLE CF) : List ℕ → CF → CF
  | [], acc => acc
  | i :: rest, acc =>
    let r := residual result_system initial_system i
    if CF.isNaN r then r
    else
      let expected := getCF initial_system.d i
      if CF.ne0 expected then
        let rel := CF.div (CF.abs (CF.sub r expected)) (CF.abs expected)
        maxrelGo result_system initial_system rest (if CF.gt rel acc then rel else acc)
      else maxrelGo result_system initial_system rest acc

/-- `triSLE_validate_maxrel` from `sle.c`; a NULL argument yields
`0.0/0.0`, i.e. NaN. -/
def triSLE_validate_maxrel (result_system initial_system : Option (TriSLE CF)) : CF :=
  match result_system, initial_system with
  | some res, some init => maxrelGo res init (List.range init.b.length) (CF.fin 0)
  | _, _ => CF.nan

/-- The loop of `triSLE_validate_mape` over the remaining row indices,
with the running error total `acc`.  A row with `d₀[i] != 0.0` adds
`fabs((r - d₀[i]) / d₀[i]) * 100`; otherwise (`d₀[i] == 0.0`) a row with
`r != 0.0` adds the fixed penalty `1.0`. -/
def mapeGo (result_system initial_system : TriSLE CF) : List ℕ → CF → CF
  | [], acc => acc
  | i :: rest, acc =>
    let r := residual result_system initial_system i
    let expected := getCF initial_system.d i
    if CF.ne0 expected then
      mapeGo result_system initial_system rest
        (CF.add acc (CF.mul (CF.abs (CF.div (CF.sub r expected) expected)) (CF.fin 100)))
    else if CF.ne0 r then
      mapeGo result_system initial_system rest (CF.add acc (CF.fin 1))
    else mapeGo result_system initial_system rest acc

/-- `triSLE_validate_mape` from `sle.c`: the accumulated total divided by
`initial_system->b->n`; a NULL argument yields `0.0/0.0`, i.e. NaN. -/
def triSLE_validate_mape (result_system initial_system : Option (TriSLE CF)) : CF :=
  match result_system, initial_system with
  | some res, some init =>
    CF.div (mapeGo res init (List.range init.b.length) (CF.fin 0))
      (CF.fin (init.b.length : ℚ))
  | _, _ => CF.nan

/-! ### `triSLE_copy` and `diagonal_destroy` -/

/-- `memcpy(dst->data, src->data, m * sizeof(float))` on buffers viewed as
lists: the first `m` cells of `dst` are overwritten with the first `m`
cells of `src`, the tail of `dst` is untouched. -/
def listCopy {α : Type} (dst src : List α) (m : ℕ) : List α :=
  src.take m ++ dst.drop m

/-- `triSLE_copy` from `sle.c` on two non-NULL systems.  The function
performs no size check: it copies `src->b->n` elements of each of
`a, b, c, d` (never `x`) and returns 0.  When `src->b->n` exceeds the
length of one of the buffers involved, the `memcpy` overruns a heap
buffer; that undefined execution is modelled as `none`. -/
def triSLE_copy {α : Type} (dest src : TriSLE α) : Option (Int × TriSLE α) :=
  let m := src.b.length
  if m ≤ dest.a.length ∧ m ≤ dest.b.length ∧ m ≤ dest.c.length ∧ m ≤ dest.d.length
      ∧ m ≤ src.a.length ∧ m ≤ src.c.length ∧ m ≤ src.d.length then
    some (0, ⟨listCopy dest.a src.a m, listCopy dest.b src.b m,
              listCopy dest.c src.c m, listCopy dest.d src.d m, dest.x⟩)
  else none

/-- `triSLE_copy` including the NULL checks: a NULL `dest` or `src` yields
`-1` (invalid argument) with no mutation. -/
def triSLE_copy_c {α : Type} (dest src : Option (TriSLE α)) :
    Option (Int × Option (TriSLE α)) :=
  match dest, src with
  | some de, some sr => (triSLE_copy de sr).map fun p => (p.1, some p.2)
  | _, _ => some (-1, dest)

/-- A `diagonal_t`: size field and data buffer. -/
structure DiagonalV where
  n : ℕ
  data : List ℚ
deriving DecidableEq, Repr

/-- `diagonal_destroy` from `diagonal.c`.  Its first statement is
`FREE_IF_NOT_NULL(diag->data)`, which evaluates `diag->data` before any
check of `diag` itself: on a NULL handle this dereferences the NULL
pointer, an undefined execution modelled as `none`.  On a non-NULL handle
it frees the data buffer and the struct and returns 0. -/
def diagonal_destroy (diag : Option DiagonalV) : Option Int :=
  match diag with
  | none => none
  | some _ => some 0

/-- Modelled from the spec (`destroy()`: releases the buffer; idempotent
no-op on an already-destroyed/NULL handle; never fails): the behaviour
`diagonal.h` documents, returning success on every input. -/
def diagonal_destroy_spec (_ : Option DiagonalV) : Option Int :=
  some 0

/-! ### Helper lemmas -/

lemma getD_range_map {α : Type} (f : ℕ → α) (dflt : α) {n i : ℕ} (h : i < n) :
    ((List.range n).map f).getD i dflt = f i := by
  rw [List.getD_eq_getElem?_getD]
  simp [List.getElem?_range h]

lemma length_range_map {α : Type} (f : ℕ → α) (n : ℕ) :
    ((List.range n).map f).length = n := by
  simp

/-! ### Claims -/

/-- C2: `diagonal_destroy` is claimed to be an idempotent no-op on a NULL
handle.  In the code the first statement `FREE_IF_NOT_NULL(diag->data)`
dereferences `diag` before any NULL check of `diag`, so on a NULL handle
the function does not return successfully but has undefined behaviour
(`none` in the model), while the documented behaviour (`diagonal.h`:
"If NULL, the function has no effect") would return success; on a
non-NULL handle it does free and return 0. -/
theorem diagonal_destroy_null_divergence :
    diagonal_destroy none = none ∧
    diagonal_destroy_spec none = some 0 ∧
    diagonal_destroy (some ⟨0, []⟩) = some 0 :=
  ⟨rfl, rfl, rfl⟩

/-- C10: on two non-NULL systems of size `n = 0`,
`triSLE_validate_mape` divides the zero accumulator by `n = 0` and
returns NaN, while `triSLE_validate_maxrel` returns `0.0`. -/
theorem validate_size_zero (res init : TriSLE CF)
    (_hres : res.b.length = 0) (hinit : init.b.length = 0) :
    triSLE_validate_mape (some res) (some init) = CF.nan ∧
    triSLE_validate_maxrel (some res) (some init) = CF.fin 0 := by
  constructor
  · simp [triSLE_validate_mape, hinit, mapeGo, CF.div]
  · simp [triSLE_validate_maxrel, hinit, maxrelGo]

/-- Witness for C10 at the concrete empty systems. -/
theorem validate_size_zero_witness :
    triSLE_validate_mape (some ⟨[], [], [], [], []⟩) (some ⟨[], [], [], [], []⟩) = CF.nan ∧
    triSLE_validate_maxrel (some ⟨[], [], [], [], []⟩) (some ⟨[], [], [], [], []⟩) = CF.fin 0 :=
  validate_size_zero ⟨[], [], [], [], []⟩ ⟨[], [], [], [], []⟩ rfl rfl

/-- C1 counterexample: `triSLE_copy` between two non-NULL systems of
different sizes (dest of size 2, src of size 1) does not return the
invalid-argument code `-1`: it returns `0` and does mutate `dest`
(its `a, b, c, d` heads are overwritten with `src`'s values). -/
theorem triSLE_copy_mismatch_counterexample :
    triSLE_copy (α := ℚ) ⟨[10, 20], [30, 40], [50, 60], [70, 80], [90, 100]⟩
        ⟨[1], [2], [3], [4], [5]⟩ =
      some (0, ⟨[1, 20], [2, 40], [3, 60], [4, 80], [90, 100]⟩) ∧
    (⟨[1, 20], [2, 40], [3, 60], [4, 80], [90, 100]⟩ : TriSLE ℚ) ≠
      ⟨[10, 20], [30, 40], [50, 60], [70, 80], [90, 100]⟩ := by
  constructor
  · rfl
  · decide

/-- C1 amended: `triSLE_copy` performs no size check at all.  On any two
non-NULL systems — equal-sized or not — whenever `src->b->n` does not
exceed the lengths of the buffers involved (otherwise the `memcpy`
overruns a heap buffer, which is undefined behaviour), it returns the
success code `0` and overwrites the first `src->b->n` elements of each of
`dest`'s `a, b, c, d` with `src`'s, leaving `x` and the buffer tails
untouched.  Only a NULL argument produces the invalid-argument code. -/
theorem triSLE_copy_no_size_check {α : Type} (dest src : TriSLE α)
    (h1 : src.b.length ≤ dest.a.length) (h2 : src.b.length ≤ dest.b.length)
    (h3 : src.b.length ≤ dest.c.length) (h4 : src.b.length ≤ dest.d.length)
    (h5 : src.b.length ≤ src.a.length) (h6 : src.b.length ≤ src.c.length)
    (h7 : src.b.length ≤ src.d.length) :
    triSLE_copy dest src =
      some (0, ⟨listCopy dest.a src.a src.b.length, listCopy dest.b src.b src.b.length,
                listCopy dest.c src.c src.b.length, listCopy dest.d src.d src.b.length,
                dest.x⟩) := by
  simp [triSLE_copy, h1, h2, h3, h4, h5, h6, h7]

/-- Witness for the amended C1 at the counterexample's mismatched input. -/
theorem triSLE_copy_no_size_check_witness :
    triSLE_copy (α := ℚ) ⟨[10, 20], [30, 40], [50, 60], [70, 80], [90, 100]⟩
        ⟨[1], [2], [3], [4], [5]⟩ =
      some (0, ⟨listCopy [10, 20] [1] 1, listCopy [30, 40] [2] 1,
                listCopy [50, 60] [3] 1, listCopy [70, 80] [4] 1, [90, 100]⟩) :=
  triSLE_copy_no_size_check ⟨[10, 20], [30, 40], [50, 60], [70, 80], [90, 100]⟩
    ⟨[1], [2], [3], [4], [5]⟩ (by decide) (by decide) (by decide) (by decide)
    (by decide) (by decide) (by decide)

/-- C9: for a system of size `n = 1`, `pcr` runs zero reduction levels
(`ceil(log2(1)) = 0`), leaves `a, b, c, d` equal to their input values,
and sets `x = [d[0] / b[0]]` with no neighbour terms. -/
theorem pcr_size_one (s : TriSLE ℚ) (h : s.b.length = 1) :
    total_levels s.b.length = 0 ∧ pcrData s = s ∧
    pcrX s = [getQ s.d 0 / getQ s.b 0] := by
  have h0 : total_levels 1 = 0 := by decide
  refine ⟨by rw [h]; exact h0, ?_, ?_⟩
  · unfold pcrData
    rw [h, h0]
    rfl
  · unfold pcrX pcrData
    rw [h, h0]
    simp [reduceLevels, List.range_succ]

/-- Witness for C9 at a concrete one-row system. -/
theorem pcr_size_one_witness :
    total_levels (TriSLE.b ⟨[1], [2], [3], [4], [5]⟩ : List ℚ).length = 0 ∧
    pcrData ⟨[1], [2], [3], [4], [5]⟩ = ⟨[1], [2], [3], [4], [5]⟩ ∧
    pcrX ⟨[1], [2], [3], [4], [5]⟩ = [getQ [4] 0 / getQ [2] 0] :=
  pcr_size_one ⟨[1], [2], [3], [4], [5]⟩ rfl

/-- The claim's decoupling coefficient `alpha` for row `i` at stride `S`:
`-a[i]` divided by `b[i-S]` when `i-S` is in range and by the virtual
boundary value `1` otherwise, with `1e-30` substituted for a divisor that
is exactly zero. -/
def alphaClaim (s : TriSLE ℚ) (stride i : ℕ) : ℚ :=
  let divisor := if stride ≤ i then getQ s.b (i - stride) else 1;
  -(getQ s.a i) / (if divisor = 0 then EPSILON else divisor)

/-- The claim's decoupling coefficient `gamma` for row `i` at stride `S`:
`-c[i]` divided by `b[i+S]` when `i+S` is in range and by the virtual
boundary value `1` otherwise, with `1e-30` substituted for a divisor that
is exactly zero. -/
def gammaClaim (s : TriSLE ℚ) (stride i : ℕ) : ℚ :=
  let divisor := if i + stride < s.b.length then getQ s.b (i + stride) else 1;
  -(getQ s.c i) / (if divisor = 0 then EPSILON else divisor)

/-- C3: at every reduction level, with stride `S = 2^level`, every row
`i < n` of the freshly written buffers satisfies the claimed formulas:
`a'[i] = alpha*a[i-S]`, `c'[i] = gamma*c[i+S]`,
`b'[i] = b[i] + alpha*c[i-S] + gamma*a[i+S]`,
`d'[i] = d[i] + alpha*d[i-S] + gamma*d[i+S]`, where out-of-range
neighbour values of `a, c, d` are taken as `0` and the coefficients
substitute `1` for an out-of-range `b` neighbour and `1e-30` for a zero
divisor. -/
theorem update_step_formula (s : TriSLE ℚ) (level i : ℕ) (h : i < s.b.length) :
    getQ (update_step s level).a i =
      alphaClaim s (2 ^ level) i *
        (if 2 ^ level ≤ i then getQ s.a (i - 2 ^ level) else 0) ∧
    getQ (update_step s level).c i =
      gammaClaim s (2 ^ level) i *
        (if i + 2 ^ level < s.b.length then getQ s.c (i + 2 ^ level) else 0) ∧
    getQ (update_step s level).b i =
      getQ s.b i +
        alphaClaim s (2 ^ level) i *
          (if 2 ^ level ≤ i then getQ s.c (i - 2 ^ level) else 0) +
        gammaClaim s (2 ^ level) i *
          (if i + 2 ^ level < s.b.length then getQ s.a (i + 2 ^ level) else 0) ∧
    getQ (update_step s level).d i =
      getQ s.d i +
        alphaClaim s (2 ^ level) i *
          (if 2 ^ level ≤ i then getQ s.d (i - 2 ^ level) else 0) +
        gammaClaim s (2 ^ level) i *
          (if i + 2 ^ level < s.b.length then getQ s.d (i + 2 ^ level) else 0) := by
  have flipL : ∀ x y : ℚ,
      (if i < 2 ^ level then x else y) = if 2 ^ level ≤ i then y else x := by
    intro x y
    rcases Nat.lt_or_ge i (2 ^ level) with hh | hh
    · rw [if_pos hh, if_neg (Nat.not_le.mpr hh)]
    · rw [if_neg (Nat.not_lt.mpr hh), if_pos hh]
  refine ⟨?_, ?_, ?_, ?_⟩
  · simp only [update_step, alphaClaim, gammaClaim, compute_decoupling_coeffs, getQ]
    rw [getD_range_map _ _ h]
    simp only [flipL]
  · simp only [update_step, alphaClaim, gammaClaim, compute_decoupling_coeffs, getQ]
    rw [getD_range_map _ _ h]
  · simp only [update_step, alphaClaim, gammaClaim, compute_decoupling_coeffs, getQ]
    rw [getD_range_map _ _ h]
    simp only [flipL]
  · simp only [update_step, alphaClaim, gammaClaim, compute_decoupling_coeffs, getQ]
    rw [getD_range_map _ _ h]
    simp only [flipL]

lemma reduceLevels_x (s : TriSLE ℚ) : ∀ k, (reduceLevels k s).x = s.x := by
  intro k
  induction k with
  | zero => rfl
  | succ k ih => exact ih

lemma pcrLoop_data (sle0 : SLEB) (t0 : Tmps) :
    ∀ k, bufsData (pcrLoop k sle0 t0).1 = reduceLevels k (bufsData sle0) ∧
      (pcrLoop k sle0 t0).1.x = sle0.x := by
  intro k
  induction k with
  | zero => exact ⟨rfl, rfl⟩
  | succ k ih =>
    obtain ⟨ih1, ih2⟩ := ih
    constructor
    · show bufsData (swapStep (pcrLoop k sle0 t0).1 (pcrLoop k sle0 t0).2 k).1 =
        update_step (reduceLevels k (bufsData sle0)) k
      rw [← ih1]
      rfl
    · exact ih2

lemma pcrLoop_ids (sle0 : SLEB) (t0 : Tmps) :
    ∀ k,
      (pcrLoop k sle0 t0).1.a.id = (if k % 2 = 0 then sle0.a.id else t0.ta.id) ∧
      (pcrLoop k sle0 t0).1.b.id = (if k % 2 = 0 then sle0.b.id else t0.tb.id) ∧
      (pcrLoop k sle0 t0).1.c.id = (if k % 2 = 0 then sle0.c.id else t0.tc.id) ∧
      (pcrLoop k sle0 t0).1.d.id = (if k % 2 = 0 then sle0.d.id else t0.td.id) ∧
      (pcrLoop k sle0 t0).2.ta.id = (if k % 2 = 0 then t0.ta.id else sle0.a.id) ∧
      (pcrLoop k sle0 t0).2.tb.id = (if k % 2 = 0 then t0.tb.id else sle0.b.id) ∧
      (pcrLoop k sle0 t0).2.tc.id = (if k % 2 = 0 then t0.tc.id else sle0.c.id) ∧
      (pcrLoop k sle0 t0).2.td.id = (if k % 2 = 0 then t0.td.id else sle0.d.id) := by
  intro k
  induction k with
  | zero => simp [pcrLoop]
  | succ k ih =>
    obtain ⟨i1, i2, i3, i4, i5, i6, i7, i8⟩ := ih
    by_cases hk : k % 2 = 0
    · have h1 : ¬((k + 1) % 2 = 0) := by omega
      simp [pcrLoop, swapStep, i1, i2, i3, i4, i5, i6, i7, i8, hk, h1]
    · have h1 : (k + 1) % 2 = 0 := by omega
      simp [pcrLoop, swapStep, i1, i2, i3, i4, i5, i6, i7, i8, hk, h1]

lemma pcrBufs_spec (sle0 : SLEB) (t0 : Tmps) :
    (pcrBufs sle0 t0).1.a.id = sle0.a.id ∧
    (pcrBufs sle0 t0).1.b.id = sle0.b.id ∧
    (pcrBufs sle0 t0).1.c.id = sle0.c.id ∧
    (pcrBufs sle0 t0).1.d.id = sle0.d.id ∧
    (pcrBufs sle0 t0).1.x.id = sle0.x.id ∧
    (pcrBufs sle0 t0).1.a.data = (pcrData (bufsData sle0)).a ∧
    (pcrBufs sle0 t0).1.b.data = (pcrData (bufsData sle0)).b ∧
    (pcrBufs sle0 t0).1.c.data = (pcrData (bufsData sle0)).c ∧
    (pcrBufs sle0 t0).1.d.data = (pcrData (bufsData sle0)).d ∧
    (pcrBufs sle0 t0).1.x.data = pcrX (bufsData sle0) ∧
    (pcrBufs sle0 t0).2.ta.id = t0.ta.id ∧
    (pcrBufs sle0 t0).2.tb.id = t0.tb.id ∧
    (pcrBufs sle0 t0).2.tc.id = t0.tc.id ∧
    (pcrBufs sle0 t0).2.td.id = t0.td.id := by
  obtain ⟨hdata, hx⟩ := pcrLoop_data sle0 t0 (total_levels sle0.b.data.length)
  obtain ⟨i1, i2, i3, i4, i5, i6, i7, i8⟩ :=
    pcrLoop_ids sle0 t0 (total_levels sle0.b.data.length)
  have hA : (pcrLoop (total_levels sle0.b.data.length) sle0 t0).1.a.data =
      (pcrData (bufsData sle0)).a := congrArg TriSLE.a hdata
  have hB : (pcrLoop (total_levels sle0.b.data.length) sle0 t0).1.b.data =
      (pcrData (bufsData sle0)).b := congrArg TriSLE.b hdata
  have hC : (pcrLoop (total_levels sle0.b.data.length) sle0 t0).1.c.data =
      (pcrData (bufsData sle0)).c := congrArg TriSLE.c hdata
  have hD : (pcrLoop (total_levels sle0.b.data.length) sle0 t0).1.d.data =
      (pcrData (bufsData sle0)).d := congrArg TriSLE.d hdata
  have hxid : (pcrLoop (total_levels sle0.b.data.length) sle0 t0).1.x.id = sle0.x.id :=
    congrArg Buf.id hx
  have hxd : ((List.range sle0.b.data.length).map fun i =>
        getQ (pcrData (bufsData sle0)).d i / getQ (pcrData (bufsData sle0)).b i) =
      pcrX (bufsData sle0) := by
    simp only [pcrX]
    rfl
  by_cases hL : total_levels sle0.b.data.length % 2 = 0
  · simp only [pcrBufs, hL]
    simp [i1, i2, i3, i4, i5, i6, i7, i8, hA, hB, hC, hD, hxid, hxd, hL]
  · simp only [pcrBufs]
    simp [i1, i2, i3, i4, i5, i6, i7, i8, hA, hB, hC, hD, hxid, hxd, hL]

/-- The rational value of a finite `CF` (0 for NaN; only applied under
finiteness hypotheses). -/
def unfin : CF → ℚ
  | .fin q => q
  | .nan => 0

/-- The claim's relative error of row `i`:
`|r[i] - d₀[i]| / |d₀[i]|` over the exact values. -/
def relErrQ (result_system initial_system : TriSLE CF) (i : ℕ) : ℚ :=
  |unfin (residual result_system initial_system i) - unfin (getCF initial_system.d i)| /
    |unfin (getCF initial_system.d i)|

/-- The claim's value for `maxrel`: the maximum (floored at the initial
accumulator 0) of the relative errors over the rows with `d₀[i] ≠ 0`. -/
def maxrelClaim (result_system initial_system : TriSLE CF) : ℚ :=
  (((List.range initial_system.b.length).filter fun i =>
      decide (unfin (getCF initial_system.d i) ≠ 0)).map
    (relErrQ result_system initial_system)).foldr max 0

/-- The claim's per-row contribution to the `mape` accumulator:
`|r[i] - d₀[i]| / |d₀[i]| · 100` on rows with `d₀[i] ≠ 0`, the fixed
penalty `1` on rows with `d₀[i] = 0` but `r[i] ≠ 0`, else `0`. -/
def mapeTermQ (result_system initial_system : TriSLE CF) (i : ℕ) : ℚ :=
  if unfin (getCF initial_system.d i) ≠ 0 then
    |unfin (residual result_system initial_system i) - unfin (getCF initial_system.d i)| /
      |unfin (getCF initial_system.d i)| * 100
  else if unfin (residual result_system initial_system i) ≠ 0 then 1
  else 0

/-- The claim's accumulated `mape` total over all rows. -/
def mapeClaimTotal (result_system initial_system : TriSLE CF) : ℚ :=
  ((List.range initial_system.b.length).map (mapeTermQ result_system initial_system)).sum

lemma foldr_max_nonneg : ∀ l : List ℚ, 0 ≤ l.foldr max 0
  | [] => le_refl 0
  | x :: xs => le_trans (foldr_max_nonneg xs) (le_max_right x (List.foldr max 0 xs))

lemma gt_update_fin (rel : CF) (acc : ℚ) :
    ∃ acc' : ℚ, (if CF.gt rel (CF.fin acc) then rel else CF.fin acc) = CF.fin acc' := by
  cases rel with
  | nan => exact ⟨acc, by simp [CF.gt]⟩
  | fin r =>
    by_cases h : acc < r
    · exact ⟨r, by simp [CF.gt, h]⟩
    · exact ⟨acc, by simp [CF.gt, h]⟩

lemma if_gt_eq_max (relq acc : ℚ) :
    (if CF.gt (CF.fin relq) (CF.fin acc) then CF.fin relq else CF.fin acc) =
      CF.fin (max acc relq) := by
  by_cases h : acc < relq
  · simp [CF.gt, h, max_eq_right (le_of_lt h)]
  · simp [CF.gt, h, max_eq_left (le_of_not_lt h)]

lemma notNan_fin {v : CF} (h : v ≠ CF.nan) : ∃ q, v = CF.fin q := by
  cases v with
  | nan => exact absurd rfl h
  | fin q => exact ⟨q, rfl⟩

lemma maxrelGo_spec (res init : TriSLE CF) :
    ∀ l : List ℕ, ∀ acc : ℚ, 0 ≤ acc →
      (∀ i ∈ l, residual res init i ≠ CF.nan) →
      maxrelGo res init l (CF.fin acc) =
        CF.fin (max acc (((l.filter fun i =>
          decide (unfin (getCF init.d i) ≠ 0)).map (relErrQ res init)).foldr max 0)) := by
  intro l
  induction l with
  | nil =>
    intro acc hacc _
    simp only [maxrelGo, List.filter_nil, List.map_nil, List.foldr_nil]
    rw [max_eq_left hacc]
  | cons i rest ih =>
    intro acc hacc hr
    obtain ⟨rq, hrq⟩ := notNan_fin (hr i (by simp))
    have hrest : ∀ j ∈ rest, residual res init j ≠ CF.nan :=
      fun j hj => hr j (by simp [hj])
    simp only [maxrelGo]
    rw [hrq]
    simp only [CF.isNaN, Bool.false_eq_true, if_false]
    cases hdv : getCF init.d i with
    | nan =>
      -- `d₀[i] != 0.0` is true for NaN, but the NaN relative error never
      -- beats the accumulator, and the row is skipped on the claim side.
      simp only [CF.ne0, if_true]
      have habs : CF.abs CF.nan = CF.nan := rfl
      have hdiv : CF.div (CF.abs (CF.sub (CF.fin rq) CF.nan)) (CF.abs CF.nan) = CF.nan := rfl
      rw [hdiv]
      simp only [CF.gt, Bool.false_eq_true, if_false]
      rw [ih acc hacc hrest]
      have hfilter : decide (unfin (getCF init.d i) ≠ 0) = false := by
        rw [hdv]
        simp [unfin]
      rw [List.filter_cons]
      simp [hfilter]
    | fin dq =>
      by_cases hdz : dq = 0
      · have hne : CF.ne0 (CF.fin dq) = false := by simp [CF.ne0, hdz]
        rw [hne]
        simp only [Bool.false_eq_true, if_false]
        rw [ih acc hacc hrest]
        have hfilter : decide (unfin (getCF init.d i) ≠ 0) = false := by
          rw [hdv]
          simp [unfin, hdz]
        rw [List.filter_cons]
        simp [hfilter]
      · have hne : CF.ne0 (CF.fin dq) = true := by simp [CF.ne0, hdz]
        rw [hne]
        simp only [if_true]
        have hdiv : CF.div (CF.abs (CF.sub (CF.fin rq) (CF.fin dq))) (CF.abs (CF.fin dq)) =
            CF.fin (|rq - dq| / |dq|) := by
          simp [CF.sub, CF.abs, CF.div, abs_eq_zero, hdz]
        rw [hdiv, if_gt_eq_max]
        rw [ih (max acc (|rq - dq| / |dq|)) (le_trans hacc (le_max_left _ _)) hrest]
        have hfilter : decide (unfin (getCF init.d i) ≠ 0) = true := by
          rw [hdv]
          simp [unfin, hdz]
        have hrel : relErrQ res init i = |rq - dq| / |dq| := by
          simp [relErrQ, hrq, hdv, unfin]
        rw [List.filter_cons]
        simp [hfilter, hrel, max_assoc]

lemma maxrelGo_nan (res init : TriSLE CF) :
    ∀ l1 : List ℕ, ∀ i0 : ℕ, ∀ l2 : List ℕ, ∀ acc : ℚ,
      (∀ j ∈ l1, residual res init j ≠ CF.nan) →
      residual res init i0 = CF.nan →
      maxrelGo res init (l1 ++ i0 :: l2) (CF.fin acc) = CF.nan := by
  intro l1
  induction l1 with
  | nil =>
    intro i0 l2 acc _ hnan
    simp [maxrelGo, hnan, CF.isNaN]
  | cons j rest ih =>
    intro i0 l2 acc hl hnan
    obtain ⟨rq, hrq⟩ := notNan_fin (hl j (by simp))
    have hrest : ∀ j' ∈ rest, residual res init j' ≠ CF.nan :=
      fun j' hj' => hl j' (by simp [hj'])
    simp only [List.cons_append, maxrelGo]
    rw [hrq]
    simp only [CF.isNaN, Bool.false_eq_true, if_false]
    by_cases hne : CF.ne0 (getCF init.d j)
    · rw [if_pos hne]
      obtain ⟨acc', hacc'⟩ := gt_update_fin
        (CF.div (CF.abs (CF.sub (CF.fin rq) (getCF init.d j))) (CF.abs (getCF init.d j))) acc
      rw [hacc']
      exact ih i0 l2 acc' hrest hnan
    · rw [if_neg hne]
      exact ih i0 l2 acc hrest hnan

/-- C5: `triSLE_validate_maxrel` on two non-NULL systems computes for
each row the residual from the original coefficients and the solved `x`.
If no residual is NaN it returns the maximum over the rows with
`d₀[i] ≠ 0` of `|r[i] - d₀[i]| / |d₀[i]|` (`maxrelClaim`, floored at 0);
if the residual of some row `i0` is NaN (all earlier residuals being
finite) it returns NaN immediately, without scanning further rows. -/
theorem maxrel_characterization (res init : TriSLE CF) :
    ((∀ i, i < init.b.length → residual res init i ≠ CF.nan) →
      triSLE_validate_maxrel (some res) (some init) = CF.fin (maxrelClaim res init)) ∧
    (∀ i0, i0 < init.b.length → residual res init i0 = CF.nan →
      (∀ j, j < i0 → residual res init j ≠ CF.nan) →
      triSLE_validate_maxrel (some res) (some init) = CF.nan) := by
  constructor
  · intro hr
    show maxrelGo res init (List.range init.b.length) (CF.fin 0) = _
    rw [maxrelGo_spec res init (List.range init.b.length) 0 le_rfl
      (fun i hi => hr i (List.mem_range.mp hi))]
    rw [max_eq_right (foldr_max_nonneg _)]
    rfl
  · intro i0 h0 hnan hprev
    show maxrelGo res init (List.range init.b.length) (CF.fin 0) = CF.nan
    have hn2 : init.b.length = i0 + 1 + (init.b.length - i0 - 1) := by omega
    have hsplit : List.range init.b.length =
        List.range i0 ++ i0 ::
          ((List.range (init.b.length - i0 - 1)).map fun x => i0 + 1 + x) := by
      conv_lhs => rw [hn2]
      rw [List.range_add, show i0 + 1 = Nat.succ i0 from rfl, List.range_succ]
      simp [List.append_assoc]
    rw [hsplit]
    exact maxrelGo_nan res init (List.range i0) i0 _ 0
      (fun j hj => hprev j (List.mem_range.mp hj)) hnan

/-- Witness for C5: a one-row system with a finite residual for the first
part, and one with `x = [NaN]` (hence residual NaN at row 0) for the
second. -/
theorem maxrel_characterization_witness :
    triSLE_validate_maxrel
        (some ⟨[CF.fin 0], [CF.fin 2], [CF.fin 0], [CF.fin 3], [CF.fin 3]⟩)
        (some ⟨[CF.fin 0], [CF.fin 2], [CF.fin 0], [CF.fin 3], [CF.fin 0]⟩) =
      CF.fin (maxrelClaim ⟨[CF.fin 0], [CF.fin 2], [CF.fin 0], [CF.fin 3], [CF.fin 3]⟩
        ⟨[CF.fin 0], [CF.fin 2], [CF.fin 0], [CF.fin 3], [CF.fin 0]⟩) ∧
    triSLE_validate_maxrel
        (some ⟨[CF.fin 0], [CF.fin 2], [CF.fin 0], [CF.fin 3], [CF.nan]⟩)
        (some ⟨[CF.fin 0], [CF.fin 2], [CF.fin 0], [CF.fin 3], [CF.fin 0]⟩) = CF.nan := by
  constructor
  · refine (maxrel_characterization
      ⟨[CF.fin 0], [CF.fin 2], [CF.fin 0], [CF.fin 3], [CF.fin 3]⟩
      ⟨[CF.fin 0], [CF.fin 2], [CF.fin 0], [CF.fin 3], [CF.fin 0]⟩).1 ?_
    intro i hi
    have h0 : i = 0 := by simpa [Nat.lt_one_iff] using hi
    subst h0
    simp [residual, getCF, CF.mul]
  · refine (maxrel_characterization
      ⟨[CF.fin 0], [CF.fin 2], [CF.fin 0], [CF.fin 3], [CF.nan]⟩
      ⟨[CF.fin 0], [CF.fin 2], [CF.fin 0], [CF.fin 3], [CF.fin 0]⟩).2 0 (by simp) rfl ?_
    intro j hj
    exact absurd hj (Nat.not_lt_zero j)

lemma mapeGo_spec (res init : TriSLE CF) :
    ∀ l : List ℕ, ∀ acc : ℚ,
      (∀ i ∈ l, residual res init i ≠ CF.nan) →
      (∀ i ∈ l, getCF init.d i ≠ CF.nan) →
      mapeGo res init l (CF.fin acc) =
        CF.fin (acc + (l.map (mapeTermQ res init)).sum) := by
  intro l
  induction l with
  | nil =>
    intro acc _ _
    simp [mapeGo]
  | cons i rest ih =>
    intro acc hr hd
    obtain ⟨rq, hrq⟩ := notNan_fin (hr i (by simp))
    obtain ⟨dq, hdq⟩ := notNan_fin (hd i (by simp))
    have hrrest : ∀ j ∈ rest, residual res init j ≠ CF.nan :=
      fun j hj => hr j (by simp [hj])
    have hdrest : ∀ j ∈ rest, getCF init.d j ≠ CF.nan :=
      fun j hj => hd j (by simp [hj])
    simp only [mapeGo]
    rw [hrq, hdq]
    by_cases hdz : dq = 0
    · have hne : CF.ne0 (CF.fin dq) = false := by simp [CF.ne0, hdz]
      rw [hne]
      simp only [Bool.false_eq_true, if_false]
      by_cases hrz : rq = 0
      · have hnr : CF.ne0 (CF.fin rq) = false := by simp [CF.ne0, hrz]
        rw [hnr]
        simp only [Bool.false_eq_true, if_false]
        rw [ih acc hrrest hdrest]
        have hterm : mapeTermQ res init i = 0 := by
          simp [mapeTermQ, hrq, hdq, unfin, hdz, hrz]
        rw [List.map_cons, List.sum_cons, hterm, zero_add]
      · have hnr : CF.ne0 (CF.fin rq) = true := by simp [CF.ne0, hrz]
        rw [hnr]
        simp only [if_true]
        show mapeGo res init rest (CF.fin (acc + 1)) = _
        rw [ih (acc + 1) hrrest hdrest]
        have hterm : mapeTermQ res init i = 1 := by
          simp [mapeTermQ, hrq, hdq, unfin, hdz, hrz]
        rw [List.map_cons, List.sum_cons, hterm]
        ring_nf
    · have hne : CF.ne0 (CF.fin dq) = true := by simp [CF.ne0, hdz]
      rw [hne]
      simp only [if_true]
      have hstep : CF.add (CF.fin acc)
          (CF.mul (CF.abs (CF.div (CF.sub (CF.fin rq) (CF.fin dq)) (CF.fin dq)))
            (CF.fin 100)) =
          CF.fin (acc + |rq - dq| / |dq| * 100) := by
        simp [CF.sub, CF.div, CF.abs, CF.mul, CF.add, hdz, abs_div]
      rw [hstep, ih _ hrrest hdrest]
      have hterm : mapeTermQ res init i = |rq - dq| / |dq| * 100 := by
        simp [mapeTermQ, hrq, hdq, unfin, hdz]
      rw [List.map_cons, List.sum_cons, hterm]
      ring_nf

/-- C6: on two non-NULL systems whose recomputed residuals and original
right-hand sides are finite, `triSLE_validate_mape` returns the total of
`|r[i] - d₀[i]| / |d₀[i]| · 100` over rows with `d₀[i] ≠ 0` plus a fixed
penalty of `1.0` (not `100.0`) for each row with `d₀[i] = 0` but
`r[i] ≠ 0`, divided by `n` (`CF.div` makes the division by `n = 0` NaN,
as in C). -/
theorem mape_characterization (res init : TriSLE CF)
    (hr : ∀ i, i < init.b.length → residual res init i ≠ CF.nan)
    (hd : ∀ i, i < init.b.length → getCF init.d i ≠ CF.nan) :
    triSLE_validate_mape (some res) (some init) =
      CF.div (CF.fin (mapeClaimTotal res init)) (CF.fin (init.b.length : ℚ)) := by
  show CF.div (mapeGo res init (List.range init.b.length) (CF.fin 0)) _ = _
  rw [mapeGo_spec res init (List.range init.b.length) 0
    (fun i hi => hr i (List.mem_range.mp hi)) (fun i hi => hd i (List.mem_range.mp hi))]
  rw [zero_add]
  rfl

/-- Witness for C6 at a concrete one-row system. -/
theorem mape_characterization_witness :
    triSLE_validate_mape
        (some ⟨[CF.fin 0], [CF.fin 2], [CF.fin 0], [CF.fin 3], [CF.fin 3]⟩)
        (some ⟨[CF.fin 0], [CF.fin 2], [CF.fin 0], [CF.fin 3], [CF.fin 0]⟩) =
      CF.div (CF.fin (mapeClaimTotal ⟨[CF.fin 0], [CF.fin 2], [CF.fin 0], [CF.fin 3], [CF.fin 3]⟩
          ⟨[CF.fin 0], [CF.fin 2], [CF.fin 0], [CF.fin 3], [CF.fin 0]⟩))
        (CF.fin (([CF.fin 2] : List CF).length : ℚ)) := by
  refine mape_characterization
    ⟨[CF.fin 0], [CF.fin 2], [CF.fin 0], [CF.fin 3], [CF.fin 3]⟩
    ⟨[CF.fin 0], [CF.fin 2], [CF.fin 0], [CF.fin 3], [CF.fin 0]⟩ ?_ ?_
  · intro i hi
    have h0 : i = 0 := by simpa [Nat.lt_one_iff] using hi
    subst h0
    simp [residual, getCF, CF.mul]
  · intro i hi
    have h0 : i = 0 := by simpa [Nat.lt_one_iff] using hi
    subst h0
    simp [getCF]

/-- C4: for every system with `n ≥ 1` and successful allocation, `pcr`
returns 0 and, despite the per-level buffer-pointer swapping, the
caller-visible buffers of `a, b, c, d` (and `x`) are the very allocations
originally passed in — for odd level counts via the extra copy-and-swap-
back pass — and they hold the values after all `ceil(log2(n))` reduction
levels (`pcrData`), with `x` holding the final `d/b` quotients (`pcrX`);
the four buffers freed at the end are exactly the scratch allocations. -/
theorem pcr_handle_identity (sle0 : SLEB) (ta tb tc td : Buf)
    (h : 1 ≤ sle0.b.data.length) :
    (pcr sle0 (some ta) (some tb) (some tc) (some td)).1 = 0 ∧
    (pcr sle0 (some ta) (some tb) (some tc) (some td)).2.1.a.id = sle0.a.id ∧
    (pcr sle0 (some ta) (some tb) (some tc) (some td)).2.1.b.id = sle0.b.id ∧
    (pcr sle0 (some ta) (some tb) (some tc) (some td)).2.1.c.id = sle0.c.id ∧
    (pcr sle0 (some ta) (some tb) (some tc) (some td)).2.1.d.id = sle0.d.id ∧
    (pcr sle0 (some ta) (some tb) (some tc) (some td)).2.1.x.id = sle0.x.id ∧
    (pcr sle0 (some ta) (some tb) (some tc) (some td)).2.1.a.data =
      (pcrData (bufsData sle0)).a ∧
    (pcr sle0 (some ta) (some tb) (some tc) (some td)).2.1.b.data =
      (pcrData (bufsData sle0)).b ∧
    (pcr sle0 (some ta) (some tb) (some tc) (some td)).2.1.c.data =
      (pcrData (bufsData sle0)).c ∧
    (pcr sle0 (some ta) (some tb) (some tc) (some td)).2.1.d.data =
      (pcrData (bufsData sle0)).d ∧
    (pcr sle0 (some ta) (some tb) (some tc) (some td)).2.1.x.data =
      pcrX (bufsData sle0) ∧
    (pcr sle0 (some ta) (some tb) (some tc) (some td)).2.2 =
      [ta.id, tb.id, tc.id, td.id] := by
  have hn : ¬(sle0.b.data.length = 0) := by omega
  obtain ⟨p1, p2, p3, p4, p5, p6, p7, p8, p9, p10, p11, p12, p13, p14⟩ :=
    pcrBufs_spec sle0 ⟨ta, tb, tc, td⟩
  simp [pcr, hn, p1, p2, p3, p4, p5, p6, p7, p8, p9, p10, p11, p12, p13, p14]

/-- Witness for C4 at a concrete one-row system (buffer ids 1..5,
scratch ids 6..9). -/
theorem pcr_handle_identity_witness :
    (pcr ⟨⟨1, [0]⟩, ⟨2, [2]⟩, ⟨3, [0]⟩, ⟨4, [6]⟩, ⟨5, [0]⟩⟩
        (some ⟨6, []⟩) (some ⟨7, []⟩) (some ⟨8, []⟩) (some ⟨9, []⟩)).1 = 0 ∧
    (pcr ⟨⟨1, [0]⟩, ⟨2, [2]⟩, ⟨3, [0]⟩, ⟨4, [6]⟩, ⟨5, [0]⟩⟩
        (some ⟨6, []⟩) (some ⟨7, []⟩) (some ⟨8, []⟩) (some ⟨9, []⟩)).2.1.a.id = 1 ∧
    (pcr ⟨⟨1, [0]⟩, ⟨2, [2]⟩, ⟨3, [0]⟩, ⟨4, [6]⟩, ⟨5, [0]⟩⟩
        (some ⟨6, []⟩) (some ⟨7, []⟩) (some ⟨8, []⟩) (some ⟨9, []⟩)).2.1.b.id = 2 ∧
    (pcr ⟨⟨1, [0]⟩, ⟨2, [2]⟩, ⟨3, [0]⟩, ⟨4, [6]⟩, ⟨5, [0]⟩⟩
        (some ⟨6, []⟩) (some ⟨7, []⟩) (some ⟨8, []⟩) (some ⟨9, []⟩)).2.1.c.id = 3 ∧
    (pcr ⟨⟨1, [0]⟩, ⟨2, [2]⟩, ⟨3, [0]⟩, ⟨4, [6]⟩, ⟨5, [0]⟩⟩
        (some ⟨6, []⟩) (some ⟨7, []⟩) (some ⟨8, []⟩) (some ⟨9, []⟩)).2.1.d.id = 4 ∧
    (pcr ⟨⟨1, [0]⟩, ⟨2, [2]⟩, ⟨3, [0]⟩, ⟨4, [6]⟩, ⟨5, [0]⟩⟩
        (some ⟨6, []⟩) (some ⟨7, []⟩) (some ⟨8, []⟩) (some ⟨9, []⟩)).2.1.x.id = 5 ∧
    (pcr ⟨⟨1, [0]⟩, ⟨2, [2]⟩, ⟨3, [0]⟩, ⟨4, [6]⟩, ⟨5, [0]⟩⟩
        (some ⟨6, []⟩) (some ⟨7, []⟩) (some ⟨8, []⟩) (some ⟨9, []⟩)).2.2 =
      [6, 7, 8, 9] := by
  obtain ⟨w1, w2, w3, w4, w5, w6, _, _, _, _, _, w12⟩ :=
    pcr_handle_identity ⟨⟨1, [0]⟩, ⟨2, [2]⟩, ⟨3, [0]⟩, ⟨4, [6]⟩, ⟨5, [0]⟩⟩
      ⟨6, []⟩ ⟨7, []⟩ ⟨8, []⟩ ⟨9, []⟩ (by decide)
  exact ⟨w1, w2, w3, w4, w5, w6, w12⟩

/-- C7: if any of the four scratch-buffer allocations fails, `pcr`
returns the allocation-error code `-1`, leaves the system (all of
`a, b, c, d, x`) unmodified, and frees exactly the scratch buffers that
had already been allocated, in allocation order. -/
theorem pcr_alloc_failure (sle0 : SLEB) (ma mb mc md : Option Buf)
    (h : 1 ≤ sle0.b.data.length)
    (hfail : ma = none ∨ mb = none ∨ mc = none ∨ md = none) :
    pcr sle0 ma mb mc md =
      (-1, sle0, [ma, mb, mc, md].filterMap fun o => o.map Buf.id) := by
  have hn : ¬(sle0.b.data.length = 0) := by omega
  rcases ma with _ | ta <;> rcases mb with _ | tb <;>
    rcases mc with _ | tc <;> rcases md with _ | td
  all_goals try (rcases hfail with hf | hf | hf | hf <;> exact Option.noConfusion hf)
  all_goals simp [pcr, hn]

/-- Witness for C7: the second scratch allocation fails. -/
theorem pcr_alloc_failure_witness :
    pcr ⟨⟨1, [0]⟩, ⟨2, [2]⟩, ⟨3, [0]⟩, ⟨4, [6]⟩, ⟨5, [0]⟩⟩
        (some ⟨6, []⟩) none (some ⟨8, []⟩) none =
      (-1, ⟨⟨1, [0]⟩, ⟨2, [2]⟩, ⟨3, [0]⟩, ⟨4, [6]⟩, ⟨5, [0]⟩⟩,
        [some ⟨6, []⟩, none, some ⟨8, []⟩, none].filterMap fun o => o.map Buf.id) :=
  pcr_alloc_failure ⟨⟨1, [0]⟩, ⟨2, [2]⟩, ⟨3, [0]⟩, ⟨4, [6]⟩, ⟨5, [0]⟩⟩
    (some ⟨6, []⟩) none (some ⟨8, []⟩) none (by decide) (Or.inr (Or.inl rfl))

lemma update_step_decoupled (s : TriSLE ℚ) (lvl : ℕ)
    (hd : s.d.length ≤ s.b.length)
    (ha : ∀ i, getQ s.a i = 0) (hc : ∀ i, getQ s.c i = 0) :
    (update_step s lvl).b.length = s.b.length ∧
    (update_step s lvl).d.length ≤ (update_step s lvl).b.length ∧
    (∀ i, getQ (update_step s lvl).a i = 0) ∧
    (∀ i, getQ (update_step s lvl).c i = 0) ∧
    (∀ i, getQ (update_step s lvl).b i = getQ s.b i) ∧
    (∀ i, getQ (update_step s lvl).d i = getQ s.d i) := by
  refine ⟨by simp [update_step], by simp [update_step], ?_, ?_, ?_, ?_⟩
  · intro i
    by_cases hi : i < s.b.length
    · show ((update_step s lvl).a).getD i 0 = 0
      simp only [update_step]
      rw [getD_range_map _ _ hi]
      rw [show getQ s.a i = 0 from ha i]
      simp only [compute_decoupling_coeffs, neg_zero, zero_div, zero_mul]
    · have hle : (update_step s lvl).a.length ≤ i := by
        simp only [update_step, length_range_map]
        omega
      exact List.getD_eq_default _ _ hle
  · intro i
    by_cases hi : i < s.b.length
    · show ((update_step s lvl).c).getD i 0 = 0
      simp only [update_step]
      rw [getD_range_map _ _ hi]
      rw [show getQ s.c i = 0 from hc i]
      simp only [compute_decoupling_coeffs, neg_zero, zero_div, zero_mul]
    · have hle : (update_step s lvl).c.length ≤ i := by
        simp only [update_step, length_range_map]
        omega
      exact List.getD_eq_default _ _ hle
  · intro i
    by_cases hi : i < s.b.length
    · show ((update_step s lvl).b).getD i 0 = getQ s.b i
      simp only [update_step]
      rw [getD_range_map _ _ hi]
      rw [show getQ s.a i = 0 from ha i, show getQ s.c i = 0 from hc i]
      simp only [compute_decoupling_coeffs, neg_zero, zero_div, zero_mul, add_zero]
    · have hle : (update_step s lvl).b.length ≤ i := by
        simp only [update_step, length_range_map]
        omega
      have hs : s.b.length ≤ i := by omega
      show ((update_step s lvl).b).getD i 0 = (s.b).getD i 0
      rw [List.getD_eq_default _ _ hle, List.getD_eq_default _ _ hs]
  · intro i
    by_cases hi : i < s.b.length
    · show ((update_step s lvl).d).getD i 0 = getQ s.d i
      simp only [update_step]
      rw [getD_range_map _ _ hi]
      rw [show getQ s.a i = 0 from ha i, show getQ s.c i = 0 from hc i]
      simp only [compute_decoupling_coeffs, neg_zero, zero_div, zero_mul, add_zero]
    · have hle : (update_step s lvl).d.length ≤ i := by
        simp only [update_step, length_range_map]
        omega
      have hs : s.d.length ≤ i := by omega
      show ((update_step s lvl).d).getD i 0 = (s.d).getD i 0
      rw [List.getD_eq_default _ _ hle, List.getD_eq_default _ _ hs]

lemma reduceLevels_decoupled (s : TriSLE ℚ)
    (hd : s.d.length ≤ s.b.length)
    (ha : ∀ i, getQ s.a i = 0) (hc : ∀ i, getQ s.c i = 0) :
    ∀ k, (reduceLevels k s).b.length = s.b.length ∧
      (reduceLevels k s).d.length ≤ (reduceLevels k s).b.length ∧
      (∀ i, getQ (reduceLevels k s).a i = 0) ∧
      (∀ i, getQ (reduceLevels k s).c i = 0) ∧
      (∀ i, getQ (reduceLevels k s).b i = getQ s.b i) ∧
      (∀ i, getQ (reduceLevels k s).d i = getQ s.d i) := by
  intro k
  induction k with
  | zero => exact ⟨rfl, hd, ha, hc, fun _ => rfl, fun _ => rfl⟩
  | succ k ih =>
    obtain ⟨ih1, ih2, ih3, ih4, ih5, ih6⟩ := ih
    obtain ⟨u1, u2, u3, u4, u5, u6⟩ :=
      update_step_decoupled (reduceLevels k s) k ih2 ih3 ih4
    exact ⟨u1.trans ih1, u2, u3, u4,
      fun i => (u5 i).trans (ih5 i), fun i => (u6 i).trans (ih6 i)⟩

/-- C8: on a fully decoupled system (`a[i] = c[i] = 0` everywhere and
`d[i] = k·b[i]` with `b[i] ≠ 0`), every reduction level leaves
`a, b, c, d` unchanged, and the solution written by `pcr` is exactly
`x[i] = k` for every row — exactly, in the exact arithmetic of the
model. -/
theorem pcr_decoupled (s : TriSLE ℚ) (k : ℚ)
    (hdlen : s.d.length ≤ s.b.length)
    (ha : ∀ i, getQ s.a i = 0) (hc : ∀ i, getQ s.c i = 0)
    (hd : ∀ i, i < s.b.length → getQ s.d i = k * getQ s.b i)
    (hb : ∀ i, i < s.b.length → getQ s.b i ≠ 0) :
    ∀ i, i < s.b.length → (pcrX s).getD i 0 = k := by
  intro i hi
  obtain ⟨r1, r2, r3, r4, r5, r6⟩ :=
    reduceLevels_decoupled s hdlen ha hc (total_levels s.b.length)
  simp only [pcrX, pcrData]
  rw [getD_range_map _ _ hi, r6 i, r5 i, hd i hi, mul_div_assoc,
    div_self (hb i hi), mul_one]

/-- Witness for C8: the decoupled system `b = [1, 2]`, `d = [3, 6]`,
`k = 3`. -/
theorem pcr_decoupled_witness :
    (pcrX ⟨[0, 0], [1, 2], [0, 0], [3, 6], [0, 0]⟩).getD 0 0 = 3 ∧
    (pcrX ⟨[0, 0], [1, 2], [0, 0], [3, 6], [0, 0]⟩).getD 1 0 = 3 := by
  have ha : ∀ i, getQ [0, 0] i = 0 := by
    intro i
    rcases i with _ | _ | i <;> rfl
  have hd : ∀ i, i < ([1, 2] : List ℚ).length → getQ [3, 6] i = 3 * getQ [1, 2] i := by
    intro i hi
    norm_num at hi
    interval_cases i <;> norm_num [getQ]
  have hb : ∀ i, i < ([1, 2] : List ℚ).length → getQ [1, 2] i ≠ 0 := by
    intro i hi
    norm_num at hi
    interval_cases i <;> norm_num [getQ]
  exact ⟨pcr_decoupled ⟨[0, 0], [1, 2], [0, 0], [3, 6], [0, 0]⟩ 3 (by decide) ha ha hd hb
      0 (by decide),
    pcr_decoupled ⟨[0, 0], [1, 2], [0, 0], [3, 6], [0, 0]⟩ 3 (by decide) ha ha hd hb
      1 (by decide)⟩

/-- Witness for C3 at level 0, row 0 of a concrete one-row system. -/
theorem update_step_formula_witness :
    getQ (update_step ⟨[1], [2], [3], [4], [5]⟩ 0).a 0 =
      alphaClaim ⟨[1], [2], [3], [4], [5]⟩ (2 ^ 0) 0 *
        (if 2 ^ 0 ≤ 0 then getQ [1] (0 - 2 ^ 0) else 0) ∧
    getQ (update_step ⟨[1], [2], [3], [4], [5]⟩ 0).c 0 =
      gammaClaim ⟨[1], [2], [3], [4], [5]⟩ (2 ^ 0) 0 *
        (if 0 + 2 ^ 0 < (TriSLE.b ⟨[1], [2], [3], [4], [5]⟩ : List ℚ).length then
          getQ [3] (0 + 2 ^ 0) else 0) ∧
    getQ (update_step ⟨[1], [2], [3], [4], [5]⟩ 0).b 0 =
      getQ [2] 0 +
        alphaClaim ⟨[1], [2], [3], [4], [5]⟩ (2 ^ 0) 0 *
          (if 2 ^ 0 ≤ 0 then getQ [3] (0 - 2 ^ 0) else 0) +
        gammaClaim ⟨[1], [2], [3], [4], [5]⟩ (2 ^ 0) 0 *
          (if 0 + 2 ^ 0 < (TriSLE.b ⟨[1], [2], [3], [4], [5]⟩ : List ℚ).length then
            getQ [1] (0 + 2 ^ 0) else 0) ∧
    getQ (update_step ⟨[1], [2], [3], [4], [5]⟩ 0).d 0 =
      getQ [4] 0 +
        alphaClaim ⟨[1], [2], [3], [4], [5]⟩ (2 ^ 0) 0 *
          (if 2 ^ 0 ≤ 0 then getQ [4] (0 - 2 ^ 0) else 0) +
        gammaClaim ⟨[1], [2], [3], [4], [5]⟩ (2 ^ 0) 0 *
          (if 0 + 2 ^ 0 < (TriSLE.b ⟨[1], [2], [3], [4], [5]⟩ : List ℚ).length then
            getQ [4] (0 + 2 ^ 0) else 0) :=
  update_step_formula ⟨[1], [2], [3], [4], [5]⟩ 0 0 (by decide)

end KPP2
